import Mathlib

/-!
Verification of the concurrency-orchestration and pagination core of
ScoutSuite (`ScoutSuite/providers/utils.py` and
`ScoutSuite/providers/gcp/facade/cloudsql.py`) against its design
specification.

The Python source is shallowly embedded: pure functions become Lean
functions over `Nat`/`List`; the asyncio scheduler is modelled by giving
every scheduled task an outcome (`Except`) and a completion time under the
run's schedule, with nondeterministic completion order passed in as an
oracle constrained by hypotheses.
-/

namespace ScoutSuite

/-! ### UTF-8 encoding — model of Python `name.encode('utf-8')` -/

/-- Standard UTF-8 encoding of one Unicode scalar value as a byte list. -/
def utf8EncodeChar (c : Char) : List Nat :=
  let n := c.toNat
  if n < 0x80 then [n]
  else if n < 0x800 then [0xC0 ||| (n >>> 6), 0x80 ||| (n &&& 0x3F)]
  else if n < 0x10000 then
    [0xE0 ||| (n >>> 12), 0x80 ||| ((n >>> 6) &&& 0x3F), 0x80 ||| (n &&& 0x3F)]
  else
    [0xF0 ||| (n >>> 18), 0x80 ||| ((n >>> 12) &&& 0x3F), 0x80 ||| ((n >>> 6) &&& 0x3F),
      0x80 ||| (n &&& 0x3F)]

/-- UTF-8 encoding of a string, byte by byte. -/
def utf8Encode (s : String) : List Nat := s.data.flatMap utf8EncodeChar

/-! ### SHA-1 — model of Python `hashlib.sha1` as used by `get_non_provider_id` -/

/-- `2 ^ 32`: all SHA-1 word arithmetic is taken modulo this. -/
def w32 : Nat := 2 ^ 32

/-- Left rotation of a 32-bit word. -/
def rotl (n w : Nat) : Nat := ((w <<< n) % w32) ||| (w >>> (32 - n))

/-- The five 32-bit working/chaining words of SHA-1. -/
structure Sha1State where
  a : Nat
  b : Nat
  c : Nat
  d : Nat
  e : Nat
deriving DecidableEq

/-- Big-endian 8-byte encoding of the bit length, as appended by SHA-1 padding. -/
def lenBytes8 (n : Nat) : List Nat :=
  [n >>> 56 &&& 0xFF, n >>> 48 &&& 0xFF, n >>> 40 &&& 0xFF, n >>> 32 &&& 0xFF,
    n >>> 24 &&& 0xFF, n >>> 16 &&& 0xFF, n >>> 8 &&& 0xFF, n &&& 0xFF]

/-- SHA-1 padding: a `0x80` byte, zeros to 56 mod 64, then the bit length. -/
def sha1Pad (m : List Nat) : List Nat :=
  m ++ [0x80] ++ List.replicate ((120 - (m.length + 1) % 64) % 64) 0
    ++ lenBytes8 (8 * m.length)

/-- Big-endian grouping of bytes into 32-bit words. -/
def bytesToWords : List Nat → List Nat
  | b0 :: b1 :: b2 :: b3 :: rest =>
      (b0 * 0x1000000 + b1 * 0x10000 + b2 * 0x100 + b3) :: bytesToWords rest
  | _ => []

/-- One step of the SHA-1 message-schedule extension; the accumulator list is
reversed, so `w[i-3]` is index 2, `w[i-8]` index 7, `w[i-14]` index 13 and
`w[i-16]` index 15. -/
def extendStep (rws : List Nat) : Nat :=
  rotl 1 (rws.getD 2 0 ^^^ rws.getD 7 0 ^^^ rws.getD 13 0 ^^^ rws.getD 15 0)

/-- Extend the 16 block words by `n` more schedule words (80 in total). -/
def extendWords : Nat → List Nat → List Nat
  | 0, rws => rws.reverse
  | n + 1, rws => extendWords n (extendStep rws :: rws)

/-- The SHA-1 round function, selected by round index. -/
def sha1F (t b c d : Nat) : Nat :=
  if t < 20 then (b &&& c) ||| ((b ^^^ 0xFFFFFFFF) &&& d)
  else if t < 40 then b ^^^ c ^^^ d
  else if t < 60 then (b &&& c) ||| (b &&& d) ||| (c &&& d)
  else b ^^^ c ^^^ d

/-- The SHA-1 round constants, selected by round index. -/
def sha1K (t : Nat) : Nat :=
  if t < 20 then 0x5A827999 else if t < 40 then 0x6ED9EBA1
  else if t < 60 then 0x8F1BBCDC else 0xCA62C1D6

/-- The 80 SHA-1 rounds over the schedule words. -/
def sha1Rounds : Nat → List Nat → Sha1State → Sha1State
  | _, [], s => s
  | t, w :: ws, s =>
      sha1Rounds (t + 1) ws
        { a := (rotl 5 s.a + sha1F t s.b s.c s.d + s.e + sha1K t + w) % w32,
          b := s.a, c := rotl 30 s.b, d := s.c, e := s.d }

/-- Compression of one 64-byte block into the chaining state. -/
def sha1Compress (block : List Nat) (h : Sha1State) : Sha1State :=
  let ws := extendWords 64 (bytesToWords block).reverse
  let s := sha1Rounds 0 ws h
  { a := (h.a + s.a) % w32, b := (h.b + s.b) % w32, c := (h.c + s.c) % w32,
    d := (h.d + s.d) % w32, e := (h.e + s.e) % w32 }

/-- Fold the compression over consecutive 64-byte blocks; the fuel is an upper
bound on the number of blocks (the padded message length suffices). -/
def sha1Blocks : Nat → List Nat → Sha1State → Sha1State
  | 0, _, h => h
  | fuel + 1, msg, h =>
      if msg.length < 64 then h
      else sha1Blocks fuel (msg.drop 64) (sha1Compress (msg.take 64) h)

/-- The SHA-1 initialization vector. -/
def sha1Init : Sha1State :=
  { a := 0x67452301, b := 0xEFCDAB89, c := 0x98BADCFE, d := 0x10325476, e := 0xC3D2E1F0 }

/-- SHA-1 of a byte list, as the five 32-bit digest words. -/
def sha1Words (m : List Nat) : Sha1State :=
  let p := sha1Pad m
  sha1Blocks p.length p sha1Init

/-- Lower-case hex character for a nibble. -/
def hexChar (n : Nat) : Char :=
  if n < 10 then Char.ofNat (48 + n) else Char.ofNat (87 + n)

/-- Exactly `k` lower-case hex digits of `w`, most significant first (the
fixed-width rendering Python's `hexdigest` uses per digest byte/word). -/
def toHexDigits : Nat → Nat → List Char
  | 0, _ => []
  | k + 1, w => toHexDigits k (w / 16) ++ [hexChar (w % 16)]

/-- `hashlib.sha1(m).hexdigest()`: the 40-character lower-case hex digest. -/
def sha1Hexdigest (m : List Nat) : String :=
  let h := sha1Words m
  String.mk (toHexDigits 8 h.a ++ toHexDigits 8 h.b ++ toHexDigits 8 h.c ++
    toHexDigits 8 h.d ++ toHexDigits 8 h.e)

/-- `get_non_provider_id` from `ScoutSuite/providers/utils.py`:
`sha1(name.encode('utf-8')).hexdigest()`. -/
def get_non_provider_id (name : String) : String :=
  sha1Hexdigest (utf8Encode name)

/-! ### The asyncio layer — model of `get_and_set_concurrently` and
`map_concurrently` from `ScoutSuite/providers/utils.py`.

A scheduled `asyncio.Task` is modelled by its eventual outcome (success with
a value, or the exception it completed with) together with the time at which
it reaches a completed state under the current run's schedule.  Each
`ensure_future` call creates a fresh `Task` object, so the Python set
comprehension over the cross product keeps one element per pair; a Lean
`List` (a multiset with order) models that object identity. -/

instance exceptDecEq {ε α : Type} [DecidableEq ε] [DecidableEq α] :
    DecidableEq (Except ε α)
  | .ok a, .ok b =>
      if h : a = b then .isTrue (by rw [h]) else .isFalse (by simp [h])
  | .ok _, .error _ => .isFalse (by simp)
  | .error _, .ok _ => .isFalse (by simp)
  | .error a, .error b =>
      if h : a = b then .isTrue (by rw [h]) else .isFalse (by simp [h])

/-- A task on the event loop: its eventual outcome and completion time under
the run's schedule. -/
structure SchedTask (α : Type) where
  outcome : Except String α
  ctime : Nat
deriving DecidableEq

/-- Message of the `ValueError` that `asyncio.wait` raises on an empty set. -/
def emptyWaitMsg : String := "Set of coroutines/Futures is empty."

/-- `asyncio.wait(tasks)` with the default `ALL_COMPLETED`: raises
`ValueError` on an empty set, otherwise suspends until every task of the set
has reached a completed state — success or failure, neither is re-raised —
and returns at the latest completion time. -/
def asyncio_wait {α : Type} (tasks : List (SchedTask α)) : Except String Nat :=
  if tasks.isEmpty then .error emptyWaitMsg
  else .ok ((tasks.map SchedTask.ctime).foldr max 0)

/-- The task set built by `get_and_set_concurrently`'s comprehension
`{ensure_future(f(entity, **kwargs)) for entity in entities for f in funcs}`:
entities outer, functions inner, one fresh task per pair. -/
def gasc_tasks {ε κ : Type} (get_and_set_funcs : List (ε → κ → SchedTask Unit))
    (entities : List ε) (kwargs : κ) : List (SchedTask Unit) :=
  entities.flatMap fun entity => get_and_set_funcs.map fun f => f entity kwargs

/-- `get_and_set_concurrently` from `ScoutSuite/providers/utils.py`: returns
immediately when `entities` is empty; otherwise schedules the cross-product
task set and awaits `asyncio.wait` on it.  The model returns the scheduled
task list together with the time the call returns, or the error
`asyncio.wait` raises. -/
def get_and_set_concurrently {ε κ : Type} (get_and_set_funcs : List (ε → κ → SchedTask Unit))
    (entities : List ε) (kwargs : κ) : Except String (List (SchedTask Unit) × Nat) :=
  if entities.length = 0 then .ok ([], 0)
  else
    let tasks := gasc_tasks get_and_set_funcs entities kwargs
    match asyncio_wait tasks with
    | .error e => .error e
    | .ok t => .ok (tasks, t)

/-- The drain loop of `map_concurrently`: `for task in as_completed(tasks):
result = await task; results.append(result)`.  Awaiting a failed task
re-raises its exception at that task's completion time; a successful result
is appended and the clock advances to its completion time. -/
def drainLoop {α : Type} : List (SchedTask α) → List α → Nat → Except String (List α) × Nat
  | [], results, now => (.ok results, now)
  | task :: rest, results, now =>
      match task.outcome with
      | .error e => (.error e, max now task.ctime)
      | .ok result => drainLoop rest (results ++ [result]) (max now task.ctime)

/-- `map_concurrently` from `ScoutSuite/providers/utils.py`: returns `[]`
immediately when `entities` is empty; otherwise schedules one task per entity
and drains them in completion order.  `order` is the oracle for the
nondeterministic order in which `asyncio.as_completed` yields the scheduled
tasks; theorems constrain it to be a permutation of the task set sorted by
completion time. -/
def map_concurrently {ε κ α : Type} (coro : ε → κ → SchedTask α) (entities : List ε)
    (kwargs : κ) (order : List (SchedTask α)) : Except String (List α) × Nat :=
  if entities.length = 0 then (.ok [], 0)
  else
    let _tasks := entities.map fun entity => coro entity kwargs
    drainLoop order [] 0

/-! ### The Page Walker and the CloudSQL facade —
`ScoutSuite/providers/gcp/facade/cloudsql.py`.

A page response (a parsed JSON object) is modelled as an association list
from field names to item lists; `response.get(field, [])` is lookup with a
default. -/

/-- A parsed listing response: field name to items, e.g. the `items` field. -/
def PageResponse (ι : Type) : Type := List (String × List ι)

/-- The `items` field name used by the CloudSQL facade. -/
def itemsField : String := "items"

/-- Modelled from the spec: `GCPFacadeUtils.get_all` (the Page Walker
`collect_all` of §4.3) is not under `src/` — only its callers in
`cloudsql.py` are.  Per the spec: fetch the current request (a fetch failure
aborts the walk); extract `items = response[field]`, an absent field
contributing the empty sequence; derive the next request via the
continuation; a null/absent continuation is the sole termination signal.
The fuel bounds the number of pages walked (termination is a collaborator
contract, not enforced by the component). -/
def collect_all {ρ ι : Type} (fetch : ρ → Except String (PageResponse ι))
    (continuation : ρ → PageResponse ι → Option ρ) (field : String) :
    Nat → ρ → Except String (List ι)
  | 0, _ => .ok []
  | fuel + 1, req =>
      match fetch req with
      | .error e => .error e
      | .ok resp =>
          match continuation req resp with
          | none => .ok ((resp.lookup field).getD [])
          | some nextReq =>
              match collect_all fetch continuation field fuel nextReq with
              | .error e => .error e
              | .ok rest => .ok ((resp.lookup field).getD [] ++ rest)

/-- The finite page chains a run of the Page Walker can traverse: each page's
fetch succeeds and its continuation points at the next page's request; the
last page's continuation is null. -/
inductive PageChain {ρ ι : Type} (fetch : ρ → Except String (PageResponse ι))
    (continuation : ρ → PageResponse ι → Option ρ) : ρ → List (ρ × PageResponse ι) → Prop
  | last {r s} : fetch r = .ok s → continuation r s = none →
      PageChain fetch continuation r [(r, s)]
  | step {r s r' ps} : fetch r = .ok s → continuation r s = some r' →
      PageChain fetch continuation r' ps →
      PageChain fetch continuation r ((r, s) :: ps)

namespace CloudSQLFacade

/-- `CloudSQLFacade.get_users` from `cloudsql.py`: awaits the offloaded
blocking `users().list(...).execute()` call (whose failure propagates) and
returns `response.get('items', [])`. -/
def get_users {ι : Type} (execute : Except String (PageResponse ι)) :
    Except String (List ι) :=
  match execute with
  | .error e => .error e
  | .ok response => .ok ((response.lookup itemsField).getD [])

end CloudSQLFacade

/-! ### Auxiliary definitions for the statements about SHA-1 -/

/-- The five digest words packed into one natural number below `2 ^ 160`
(big-endian composition); makes the finiteness of the identifier space
usable. -/
def digestNat (m : List Nat) : Nat :=
  let h := sha1Words m
  (((h.a * w32 + h.b) * w32 + h.c) * w32 + h.d) * w32 + h.e

/-- All five words of a SHA-1 state fit in 32 bits. -/
def WordsLt (h : Sha1State) : Prop :=
  h.a < w32 ∧ h.b < w32 ∧ h.c < w32 ∧ h.d < w32 ∧ h.e < w32

/-! ### Concrete fixtures used by witness theorems and known-answer checks -/

/-- Known-answer input. -/
def abcStr : String := "abc"

/-- FIPS 180-1 reference digest of `"abc"`. -/
def abcDigest : String := "a9993e364706816aba3e25717850c26c9cd0d89d"

/-- Error payload used by failing fixture tasks. -/
def errBoom : String := "boom"

/-- Fixture enrichment operation: succeeds at time `n`. -/
def cfunc1 : Nat → Unit → SchedTask Unit := fun n _ => ⟨Except.ok (), n⟩

/-- Fixture enrichment operation: succeeds at time `n + 10`. -/
def cfunc2 : Nat → Unit → SchedTask Unit := fun n _ => ⟨Except.ok (), n + 10⟩

/-- Fixture enrichment operation: fails at time `n + 20`. -/
def cfunc3 : Nat → Unit → SchedTask Unit := fun n _ => ⟨Except.error errBoom, n + 20⟩

/-- Fixture operation set: three operations. -/
def wfuncs : List (Nat → Unit → SchedTask Unit) := [cfunc1, cfunc2, cfunc3]

/-- Fixture entity set: four entities. -/
def wents : List Nat := [1, 2, 3, 4]

/-- Fixture mapper coroutine: squares its entity, completing at time `10 - n`
(larger entities finish first). -/
def coroSq : Nat → Unit → SchedTask Nat := fun n _ => ⟨Except.ok (n * n), 10 - n⟩

/-- The completion order of `coroSq` over `[1, 2, 3]`. -/
def ordSq : List (SchedTask Nat) := [⟨Except.ok 9, 7⟩, ⟨Except.ok 4, 8⟩, ⟨Except.ok 1, 9⟩]

/-- Fixture mapper coroutine where entity `2` fails first (time 1) and the
others succeed later (times `n + 5`). -/
def coroF : Nat → Unit → SchedTask Nat :=
  fun n _ => if n = 2 then ⟨Except.error errBoom, 1⟩ else ⟨Except.ok n, n + 5⟩

/-- First page of the two-page fixture walk: items `[1, 2]`, with a
continuation. -/
def pageA : PageResponse Nat := [(itemsField, [1, 2])]

/-- Last page of the two-page fixture walk: items `[3]`, no continuation. -/
def pageB : PageResponse Nat := [(itemsField, [3])]

/-- Fixture fetch: request `0` yields `pageA`, any other request `pageB`. -/
def fetchEx : Nat → Except String (PageResponse Nat) :=
  fun r => if r = 0 then Except.ok pageA else Except.ok pageB

/-- Fixture continuation: page `0` points at request `1`, the rest stop. -/
def contEx : Nat → PageResponse Nat → Option Nat :=
  fun r _ => if r = 0 then some 1 else none

/-- A field name distinct from `items`. -/
def kindField : String := "kind"

/-- A response carrying no `items` field. -/
def noItemsPage : PageResponse Nat := [(kindField, [9])]

/-- Fixture fetch returning only the `items`-less page. -/
def fetchNI : Nat → Except String (PageResponse Nat) := fun _ => Except.ok noItemsPage

/-- Fixture continuation for the `items`-less walk. -/
def contNI : Nat → PageResponse Nat → Option Nat :=
  fun r _ => if r = 0 then some 1 else none

/-! ### Helper lemmas -/

theorem mem_le_foldr_max (l : List Nat) : ∀ x ∈ l, x ≤ l.foldr max 0 := by
  induction l with
  | nil => simp
  | cons a t ih =>
      intro x hx
      rcases List.mem_cons.mp hx with h | h
      · subst h; exact le_max_left _ _
      · exact le_trans (ih x h) (le_max_right _ _)

theorem gasc_tasks_nil_funcs {ε κ : Type} (entities : List ε) (kw : κ) :
    gasc_tasks ([] : List (ε → κ → SchedTask Unit)) entities kw = [] := by
  induction entities with
  | nil => rfl
  | cons e es ih => simp [gasc_tasks]

theorem gasc_tasks_eq_product {ε κ : Type} (funcs : List (ε → κ → SchedTask Unit))
    (entities : List ε) (kw : κ) :
    gasc_tasks funcs entities kw = (entities ×ˢ funcs).map fun p => p.2 p.1 kw := by
  induction entities with
  | nil => simp [gasc_tasks]
  | cons e es ih =>
      simp only [gasc_tasks, List.flatMap_cons] at ih ⊢
      rw [List.product_cons, List.map_append, List.map_map, ← ih]
      rfl

theorem gasc_tasks_length {ε κ : Type} (funcs : List (ε → κ → SchedTask Unit))
    (entities : List ε) (kw : κ) :
    (gasc_tasks funcs entities kw).length = entities.length * funcs.length := by
  rw [gasc_tasks_eq_product, List.length_map, List.length_product]

/-! ### Claim theorems: the Fan-out Aggregator -/

/-- C1: for every operation list and non-empty entity list,
`get_and_set_concurrently` schedules exactly one task per (operation, entity)
pair of the cross product — `entities.length * funcs.length` tasks, the image
of `entities ×ˢ funcs` — and, whenever it returns, it does so only at a time
no earlier than every scheduled task's completion time. -/
theorem gasc_schedules_cross_product {ε κ : Type}
    (funcs : List (ε → κ → SchedTask Unit)) (entities : List ε) (kw : κ)
    (hent : entities ≠ []) :
    (gasc_tasks funcs entities kw).length = entities.length * funcs.length ∧
    gasc_tasks funcs entities kw = ((entities ×ˢ funcs).map fun p => p.2 p.1 kw) ∧
    ∀ ts t, get_and_set_concurrently funcs entities kw = Except.ok (ts, t) →
      ts = gasc_tasks funcs entities kw ∧ ∀ u ∈ ts, u.ctime ≤ t := by
  refine ⟨gasc_tasks_length funcs entities kw, gasc_tasks_eq_product funcs entities kw, ?_⟩
  intro ts t hok
  simp only [get_and_set_concurrently, asyncio_wait] at hok
  rw [if_neg (by simpa using hent)] at hok
  by_cases hemp : (gasc_tasks funcs entities kw).isEmpty
  · simp [hemp] at hok
  · simp only [hemp, Bool.false_eq_true, if_false, Except.ok.injEq, Prod.mk.injEq] at hok
    obtain ⟨hts, ht⟩ := hok
    subst hts
    subst ht
    exact ⟨rfl, fun u hu =>
      mem_le_foldr_max _ _ (List.mem_map_of_mem SchedTask.ctime hu)⟩

/-- C1 witness: 3 operations and 4 entities schedule exactly `4 * 3 = 12`
tasks, and the call returns only after all of them completed. -/
theorem gasc_schedules_cross_product_witness :
    wents ≠ [] ∧
    ((gasc_tasks wfuncs wents ()).length = wents.length * wfuncs.length ∧
      gasc_tasks wfuncs wents () = ((wents ×ˢ wfuncs).map fun p => p.2 p.1 ()) ∧
      ∀ ts t, get_and_set_concurrently wfuncs wents () = Except.ok (ts, t) →
        ts = gasc_tasks wfuncs wents () ∧ ∀ u ∈ ts, u.ctime ≤ t) :=
  ⟨by decide, gasc_schedules_cross_product wfuncs wents () (by decide)⟩

/-- C2: if at least one scheduled task fails, the fan-out call still returns
normally (`Except.ok`): per-task failures are absorbed by the batch join and
never re-raised to the caller. -/
theorem gasc_absorbs_failures {ε κ : Type}
    (funcs : List (ε → κ → SchedTask Unit)) (entities : List ε) (kw : κ)
    (hent : entities ≠ [])
    (hfail : ∃ task ∈ gasc_tasks funcs entities kw, ∃ e, task.outcome = Except.error e) :
    ∃ ts t, get_and_set_concurrently funcs entities kw = Except.ok (ts, t) := by
  obtain ⟨task, htask, -⟩ := hfail
  have hne : (gasc_tasks funcs entities kw).isEmpty = false := by
    simpa [List.isEmpty_iff] using List.ne_nil_of_mem htask
  refine ⟨gasc_tasks funcs entities kw,
    ((gasc_tasks funcs entities kw).map SchedTask.ctime).foldr max 0, ?_⟩
  simp only [get_and_set_concurrently, asyncio_wait]
  rw [if_neg (by simpa using hent)]
  simp [hne]

/-- C2 witness: entity set `[1]` with a failing third operation; the call
still returns `Except.ok`. -/
theorem gasc_absorbs_failures_witness :
    ([1] : List Nat) ≠ [] ∧
    (∃ task ∈ gasc_tasks wfuncs [1] (), ∃ e, task.outcome = Except.error e) ∧
    ∃ ts t, get_and_set_concurrently wfuncs [1] () = Except.ok (ts, t) :=
  ⟨by decide, ⟨cfunc3 1 (), by decide, errBoom, rfl⟩,
    gasc_absorbs_failures wfuncs [1] () (by decide) ⟨cfunc3 1 (), by decide, errBoom, rfl⟩⟩

/-- C7: with an empty entity list the fan-out call is a no-op: it returns
immediately with no task scheduled, whatever the operations are (they are
never invoked — the result does not depend on `funcs`). -/
theorem gasc_empty_entities_noop {ε κ : Type}
    (funcs : List (ε → κ → SchedTask Unit)) (kw : κ) :
    get_and_set_concurrently funcs ([] : List ε) kw = Except.ok ([], 0) := rfl

/-- C10: the empty-input guard only checks `entities`; with a non-empty
entity list and an empty operation list the call reaches
`asyncio.wait` on an empty task set, which raises `ValueError` instead of
returning immediately. -/
theorem gasc_empty_funcs_error {ε κ : Type} (entities : List ε) (kw : κ)
    (hent : entities ≠ []) :
    get_and_set_concurrently ([] : List (ε → κ → SchedTask Unit)) entities kw
      = Except.error emptyWaitMsg := by
  simp only [get_and_set_concurrently, asyncio_wait]
  rw [if_neg (by simpa using hent)]
  simp [gasc_tasks_nil_funcs]

/-- C10 witness: one entity, zero operations — the call errors out with the
`asyncio.wait` message. -/
theorem gasc_empty_funcs_error_witness :
    ([1] : List Nat) ≠ [] ∧
    get_and_set_concurrently ([] : List (Nat → Unit → SchedTask Unit)) [1] ()
      = Except.error emptyWaitMsg :=
  ⟨by decide, gasc_empty_funcs_error [1] () (by decide)⟩

/-! ### Claim theorems: the Streaming Mapper -/

theorem drainLoop_all_ok {α : Type} :
    ∀ (order : List (SchedTask α)) (vs acc : List α) (now : Nat),
      order.map SchedTask.outcome = vs.map Except.ok →
      (drainLoop order acc now).1 = Except.ok (acc ++ vs) := by
  intro order
  induction order with
  | nil =>
      intro vs acc now h
      have : vs = [] := by
        cases vs with
        | nil => rfl
        | cons v vs => simp at h
      subst this
      simp [drainLoop]
  | cons task rest ih =>
      intro vs acc now h
      cases vs with
      | nil => simp at h
      | cons v vs =>
          simp only [List.map_cons, List.cons.injEq] at h
          obtain ⟨h1, h2⟩ := h
          simp only [drainLoop, h1]
          rw [ih vs (acc ++ [v]) (max now task.ctime) h2]
          simp

theorem drainLoop_first_fail {α : Type} :
    ∀ (ok_part : List (SchedTask α)) (task : SchedTask α) (rest : List (SchedTask α))
      (err : String) (acc : List α) (now : Nat),
      (∀ u ∈ ok_part, ∃ v, u.outcome = Except.ok v) →
      (∀ u ∈ ok_part, u.ctime ≤ task.ctime) →
      task.outcome = Except.error err →
      now ≤ task.ctime →
      drainLoop (ok_part ++ task :: rest) acc now = (Except.error err, task.ctime) := by
  intro ok_part
  induction ok_part with
  | nil =>
      intro task rest err acc now _ _ hfail hnow
      simp [drainLoop, hfail, Nat.max_eq_right hnow]
  | cons u tail ih =>
      intro task rest err acc now hok hct hfail hnow
      obtain ⟨v, hv⟩ := hok u (List.mem_cons_self u tail)
      simp only [List.cons_append, drainLoop, hv]
      exact ih task rest err (acc ++ [v]) (max now u.ctime)
        (fun w hw => hok w (List.mem_cons_of_mem u hw))
        (fun w hw => hct w (List.mem_cons_of_mem u hw))
        hfail
        (max_le hnow (hct u (List.mem_cons_self u tail)))

/-- C4: when every scheduled task succeeds, `map_concurrently` returns the
values in completion order — a permutation of `f` mapped over the entities,
one result per entity — and an empty entity list yields `[]` immediately. -/
theorem mapc_all_ok {ε κ α : Type} (coro : ε → κ → SchedTask α) (entities : List ε)
    (kw : κ) (f : ε → α) (order : List (SchedTask α)) (vs : List α)
    (hperm : order.Perm (entities.map fun e => coro e kw))
    (hout : order.map SchedTask.outcome = vs.map Except.ok)
    (hval : ∀ e ∈ entities, (coro e kw).outcome = Except.ok (f e)) :
    (map_concurrently coro entities kw order).1 = Except.ok vs ∧
    vs.Perm (entities.map f) ∧ vs.length = entities.length ∧
    (entities = [] → map_concurrently coro entities kw order = (Except.ok [], 0)) := by
  have hvperm : vs.Perm (entities.map f) := by
    have h1 : (order.map SchedTask.outcome).Perm
        ((entities.map fun e => coro e kw).map SchedTask.outcome) := hperm.map _
    have h2 : (entities.map fun e => coro e kw).map SchedTask.outcome
        = (entities.map f).map Except.ok := by
      rw [List.map_map, List.map_map]
      exact List.map_congr_left fun e he => hval e he
    rw [hout, h2] at h1
    have h3 : ((vs : Multiset α)) = ((entities.map f : List α) : Multiset α) := by
      apply Multiset.map_injective (f := Except.ok) fun a b hab => Except.ok.inj hab
      rw [Multiset.map_coe, Multiset.map_coe]
      exact Multiset.coe_eq_coe.mpr h1
    exact Multiset.coe_eq_coe.mp h3
  refine ⟨?_, hvperm, ?_, ?_⟩
  · cases entities with
    | nil =>
        have : order = [] := List.perm_nil.mp (by simpa using hperm)
        subst this
        have : vs = [] := by
          cases vs with
          | nil => rfl
          | cons v vs => simp at hout
        subst this
        rfl
    | cons e es =>
        simp only [map_concurrently, List.length_cons, if_neg (Nat.succ_ne_zero es.length)]
        simpa using drainLoop_all_ok order vs [] 0 hout
  · rw [hvperm.length_eq, List.length_map]
  · intro h
    subst h
    rfl

/-- C4 witness: squaring `[1, 2, 3]` with completion order `3, 2, 1` returns
`[9, 4, 1]`, a permutation of the squares in completion order. -/
theorem mapc_all_ok_witness :
    ordSq.Perm ([1, 2, 3].map fun e => coroSq e ()) ∧
    ((map_concurrently coroSq [1, 2, 3] () ordSq).1 = Except.ok [9, 4, 1] ∧
      ([9, 4, 1] : List Nat).Perm ([1, 2, 3].map fun n => n * n) ∧
      ([9, 4, 1] : List Nat).length = ([1, 2, 3] : List Nat).length ∧
      (([1, 2, 3] : List Nat) = [] →
        map_concurrently coroSq [1, 2, 3] () ordSq = (Except.ok [], 0))) :=
  ⟨by decide, mapc_all_ok coroSq [1, 2, 3] () (fun n => n * n) ordSq [9, 4, 1]
    (by decide) (by decide) (by decide)⟩

/-- C3: if the completion-order drain reaches a failed task after only
successful ones, `map_concurrently` propagates exactly that task's error, at
that task's completion time — no later than the completion time of any task
still in flight behind it, so the caller does not wait for the remaining
entities. -/
theorem mapc_fail_fast {ε κ α : Type} (coro : ε → κ → SchedTask α) (entities : List ε)
    (kw : κ) (ok_part rest : List (SchedTask α)) (task : SchedTask α) (err : String)
    (hperm : (ok_part ++ task :: rest).Perm (entities.map fun e => coro e kw))
    (hsorted : (ok_part ++ task :: rest).Pairwise fun u v => u.ctime ≤ v.ctime)
    (hok : ∀ u ∈ ok_part, ∃ v, u.outcome = Except.ok v)
    (hfail : task.outcome = Except.error err) :
    map_concurrently coro entities kw (ok_part ++ task :: rest)
      = (Except.error err, task.ctime) ∧
    ∀ u ∈ rest, task.ctime ≤ u.ctime := by
  obtain ⟨-, hpair, hacross⟩ := List.pairwise_append.mp hsorted
  have hrest : ∀ u ∈ rest, task.ctime ≤ u.ctime :=
    fun u hu => (List.pairwise_cons.mp hpair).1 u hu
  have hct : ∀ u ∈ ok_part, u.ctime ≤ task.ctime :=
    fun u hu => hacross u hu task (List.mem_cons_self task rest)
  have hent : entities ≠ [] := by
    intro h
    subst h
    have hlen := hperm.length_eq
    simp at hlen
  refine ⟨?_, hrest⟩
  cases entities with
  | nil => exact absurd rfl hent
  | cons e es =>
      simp only [map_concurrently, List.length_cons, if_neg (Nat.succ_ne_zero es.length)]
      exact drainLoop_first_fail ok_part task rest err [] 0 hok hct hfail (Nat.zero_le _)

/-- C3 witness: over `[1, 2, 3]`, entity `2`'s task fails at time 1 before
the others complete (times 6 and 8); the error surfaces at time 1 without
waiting for them. -/
theorem mapc_fail_fast_witness :
    (([⟨Except.error errBoom, 1⟩, ⟨Except.ok 1, 6⟩, ⟨Except.ok 3, 8⟩] :
        List (SchedTask Nat)).Perm ([1, 2, 3].map fun e => coroF e ())) ∧
    map_concurrently coroF [1, 2, 3] ()
        ([] ++ (⟨Except.error errBoom, 1⟩ : SchedTask Nat)
          :: [⟨Except.ok 1, 6⟩, ⟨Except.ok 3, 8⟩])
      = (Except.error errBoom, 1) ∧
    ∀ u ∈ ([⟨Except.ok 1, 6⟩, ⟨Except.ok 3, 8⟩] : List (SchedTask Nat)),
      (⟨Except.error errBoom, 1⟩ : SchedTask Nat).ctime ≤ u.ctime :=
  ⟨by decide,
    (mapc_fail_fast coroF [1, 2, 3] () [] [⟨Except.ok 1, 6⟩, ⟨Except.ok 3, 8⟩]
      ⟨Except.error errBoom, 1⟩ errBoom (by decide) (by decide) (by simp) rfl).1,
    (mapc_fail_fast coroF [1, 2, 3] () [] [⟨Except.ok 1, 6⟩, ⟨Except.ok 3, 8⟩]
      ⟨Except.error errBoom, 1⟩ errBoom (by decide) (by decide) (by simp) rfl).2⟩

/-! ### Claim theorems: the Page Walker and the CloudSQL facade -/

/-- C8: over any finite page chain whose fetches all succeed and whose last
page carries the null continuation — the sole termination signal — the Page
Walker returns the concatenation of the pages' item collections in page-fetch
order, preserving the relative order of items within each page. -/
theorem collect_all_concat {ρ ι : Type} (fetch : ρ → Except String (PageResponse ι))
    (continuation : ρ → PageResponse ι → Option ρ) (field : String)
    (pages : List (ρ × PageResponse ι)) (r0 : ρ) (fuel : Nat)
    (hchain : PageChain fetch continuation r0 pages)
    (hfuel : pages.length ≤ fuel) :
    collect_all fetch continuation field fuel r0 =
      Except.ok (pages.flatMap fun p => (p.2.lookup field).getD []) := by
  induction hchain generalizing fuel with
  | last hf hc =>
      cases fuel with
      | zero => simp at hfuel
      | succ fuel => simp [collect_all, hf, hc]
  | step hf hc htail ih =>
      cases fuel with
      | zero => simp at hfuel
      | succ fuel =>
          simp only [collect_all, hf, hc]
          rw [ih fuel (by simpa using Nat.le_of_succ_le_succ hfuel)]
          simp

/-- C8 witness: pages `[{items: [1, 2], next: T1}, {items: [3], next: null}]`
yield `[1, 2, 3]` in that order. -/
theorem collect_all_concat_witness :
    ([(0, pageA), (1, pageB)] : List (Nat × PageResponse Nat)).length ≤ 2 ∧
    collect_all fetchEx contEx itemsField 2 0 = Except.ok [1, 2, 3] := by
  refine ⟨by decide, ?_⟩
  simpa using collect_all_concat fetchEx contEx itemsField [(0, pageA), (1, pageB)] 0 2
    (PageChain.step rfl rfl (PageChain.last rfl rfl)) (by decide)

/-- C9: a response without the requested items field contributes the empty
sequence rather than a failure: `get_users` returns `[]` when the response
has no `items` key, and a walked page whose field is absent adds nothing —
the walk simply continues with the next request. -/
theorem absent_field_is_empty :
    (∀ (ι : Type) (response : PageResponse ι), response.lookup itemsField = none →
      CloudSQLFacade.get_users (Except.ok response) = Except.ok ([] : List ι)) ∧
    (∀ (ρ ι : Type) (fetch : ρ → Except String (PageResponse ι))
      (continuation : ρ → PageResponse ι → Option ρ) (field : String)
      (fuel : Nat) (req nextReq : ρ) (resp : PageResponse ι),
      fetch req = Except.ok resp → resp.lookup field = none →
      continuation req resp = some nextReq →
      collect_all fetch continuation field (fuel + 1) req =
        collect_all fetch continuation field fuel nextReq) := by
  constructor
  · intro ι response hnone
    simp [CloudSQLFacade.get_users, hnone]
  · intro ρ ι fetch continuation field fuel req nextReq resp hf hnone hc
    simp only [collect_all, hf, hc, hnone, Option.getD_none, List.nil_append]
    cases collect_all fetch continuation field fuel nextReq <;> rfl

/-- C9 witness: a `kind`-only response makes `get_users` return `[]`, and a
walked `items`-less page contributes nothing to the walk. -/
theorem absent_field_is_empty_witness :
    noItemsPage.lookup itemsField = none ∧
    CloudSQLFacade.get_users (Except.ok noItemsPage) = Except.ok ([] : List Nat) ∧
    collect_all fetchNI contNI itemsField 1 0 = collect_all fetchNI contNI itemsField 0 1 :=
  ⟨by decide, absent_field_is_empty.1 Nat noItemsPage (by decide),
    absent_field_is_empty.2 Nat Nat fetchNI contNI itemsField 0 0 1 noItemsPage
      rfl (by decide) rfl⟩

/-! ### Claim theorems: the Deterministic Identifier Hasher -/

theorem toHexDigits_length : ∀ (k w : Nat), (toHexDigits k w).length = k
  | 0, _ => rfl
  | k + 1, w => by simp [toHexDigits, toHexDigits_length k]

theorem w32_pos : 0 < w32 := by norm_num [w32]

theorem sha1Compress_wordsLt (block : List Nat) (h : Sha1State) :
    WordsLt (sha1Compress block h) := by
  refine ⟨?_, ?_, ?_, ?_, ?_⟩ <;> exact Nat.mod_lt _ w32_pos

theorem sha1Blocks_wordsLt : ∀ (fuel : Nat) (msg : List Nat) (h : Sha1State),
    WordsLt h → WordsLt (sha1Blocks fuel msg h)
  | 0, _, _, hw => hw
  | fuel + 1, msg, h, hw => by
      simp only [sha1Blocks]
      split
      · exact hw
      · exact sha1Blocks_wordsLt fuel _ _ (sha1Compress_wordsLt _ _)

theorem sha1Words_wordsLt (m : List Nat) : WordsLt (sha1Words m) := by
  apply sha1Blocks_wordsLt
  refine ⟨?_, ?_, ?_, ?_, ?_⟩ <;> norm_num [sha1Init, w32]

theorem base_w32_lt (a b c d e : Nat) (ha : a < w32) (hb : b < w32) (hc : c < w32)
    (hd : d < w32) (he : e < w32) :
    (((a * w32 + b) * w32 + c) * w32 + d) * w32 + e < 2 ^ 160 := by
  simp only [w32] at *
  norm_num at *
  omega

theorem base_w32_inj (a1 b1 c1 d1 e1 a2 b2 c2 d2 e2 : Nat)
    (ha1 : a1 < w32) (hb1 : b1 < w32) (hc1 : c1 < w32) (hd1 : d1 < w32) (he1 : e1 < w32)
    (ha2 : a2 < w32) (hb2 : b2 < w32) (hc2 : c2 < w32) (hd2 : d2 < w32) (he2 : e2 < w32)
    (h : (((a1 * w32 + b1) * w32 + c1) * w32 + d1) * w32 + e1
      = (((a2 * w32 + b2) * w32 + c2) * w32 + d2) * w32 + e2) :
    a1 = a2 ∧ b1 = b2 ∧ c1 = c2 ∧ d1 = d2 ∧ e1 = e2 := by
  simp only [w32] at *
  norm_num at *
  omega

theorem digestNat_lt (m : List Nat) : digestNat m < 2 ^ 160 := by
  obtain ⟨ha, hb, hc, hd, he⟩ := sha1Words_wordsLt m
  exact base_w32_lt _ _ _ _ _ ha hb hc hd he

theorem digestNat_inj {m1 m2 : List Nat} (h : digestNat m1 = digestNat m2) :
    sha1Words m1 = sha1Words m2 := by
  have hw1 := sha1Words_wordsLt m1
  have hw2 := sha1Words_wordsLt m2
  simp only [digestNat] at h
  generalize hg1 : sha1Words m1 = s1 at *
  generalize hg2 : sha1Words m2 = s2 at *
  obtain ⟨a1, b1, c1, d1, e1⟩ := s1
  obtain ⟨a2, b2, c2, d2, e2⟩ := s2
  obtain ⟨ha1, hb1, hc1, hd1, he1⟩ := hw1
  obtain ⟨ha2, hb2, hc2, hd2, he2⟩ := hw2
  obtain ⟨q1, q2, q3, q4, q5⟩ := base_w32_inj a1 b1 c1 d1 e1 a2 b2 c2 d2 e2
    ha1 hb1 hc1 hd1 he1 ha2 hb2 hc2 hd2 he2 h
  simp [q1, q2, q3, q4, q5]

theorem hexChar_inj : ∀ m < 16, ∀ n < 16, hexChar m = hexChar n → m = n := by decide

theorem toHexDigits_inj : ∀ (k w1 w2 : Nat), w1 < 16 ^ k → w2 < 16 ^ k →
    toHexDigits k w1 = toHexDigits k w2 → w1 = w2
  | 0, w1, w2, h1, h2, _ => by
      simp only [pow_zero, Nat.lt_one_iff] at h1 h2
      omega
  | k + 1, w1, w2, h1, h2, heq => by
      simp only [toHexDigits] at heq
      obtain ⟨hh, ht⟩ := List.append_inj heq (by simp [toHexDigits_length])
      have hb1 : w1 / 16 < 16 ^ k :=
        Nat.div_lt_of_lt_mul (by rw [← pow_succ']; exact h1)
      have hb2 : w2 / 16 < 16 ^ k :=
        Nat.div_lt_of_lt_mul (by rw [← pow_succ']; exact h2)
      have hdiv : w1 / 16 = w2 / 16 := toHexDigits_inj k _ _ hb1 hb2 hh
      have hmod : w1 % 16 = w2 % 16 :=
        hexChar_inj _ (Nat.mod_lt _ (by norm_num)) _ (Nat.mod_lt _ (by norm_num))
          (by simpa using ht)
      omega

theorem hex40_inj (s1 s2 : Sha1State) (h1 : WordsLt s1) (h2 : WordsLt s2)
    (heq : toHexDigits 8 s1.a ++ toHexDigits 8 s1.b ++ toHexDigits 8 s1.c ++
        toHexDigits 8 s1.d ++ toHexDigits 8 s1.e
      = toHexDigits 8 s2.a ++ toHexDigits 8 s2.b ++ toHexDigits 8 s2.c ++
        toHexDigits 8 s2.d ++ toHexDigits 8 s2.e) : s1 = s2 := by
  obtain ⟨a1, b1, c1, d1, e1⟩ := s1
  obtain ⟨a2, b2, c2, d2, e2⟩ := s2
  obtain ⟨ha1, hb1, hc1, hd1, he1⟩ := h1
  obtain ⟨ha2, hb2, hc2, hd2, he2⟩ := h2
  simp only [w32] at ha1 hb1 hc1 hd1 he1 ha2 hb2 hc2 hd2 he2
  have hpow : ∀ x : Nat, x < 4294967296 → x < 16 ^ 8 := by norm_num
  obtain ⟨h4, he⟩ := List.append_inj heq (by simp [toHexDigits_length])
  obtain ⟨h3, hd⟩ := List.append_inj h4 (by simp [toHexDigits_length])
  obtain ⟨h2', hc⟩ := List.append_inj h3 (by simp [toHexDigits_length])
  obtain ⟨h1', hb⟩ := List.append_inj h2' (by simp [toHexDigits_length])
  have qa := toHexDigits_inj 8 _ _ (hpow _ ha1) (hpow _ ha2) h1'
  have qb := toHexDigits_inj 8 _ _ (hpow _ hb1) (hpow _ hb2) hb
  have qc := toHexDigits_inj 8 _ _ (hpow _ hc1) (hpow _ hc2) hc
  have qd := toHexDigits_inj 8 _ _ (hpow _ hd1) (hpow _ hd2) hd
  have qe := toHexDigits_inj 8 _ _ (hpow _ he1) (hpow _ he2) he
  simp [qa, qb, qc, qd, qe]

set_option maxRecDepth 100000 in
/-- Known-answer check: the embedding reproduces the FIPS 180-1 reference
digest of `"abc"`, so `sha1Hexdigest` really is SHA-1. -/
theorem sha1_known_answer : get_non_provider_id abcStr = abcDigest := by decide

/-- C5: `get_non_provider_id` is a pure total Lean function — any input
string, no I/O, no failure mode, deterministic by definition — equal to the
SHA-1 hex digest of the UTF-8 encoding of the name, and its output always
has the fixed length 40. -/
theorem get_non_provider_id_sha1_fixed_length (name : String) :
    get_non_provider_id name = sha1Hexdigest (utf8Encode name) ∧
    (get_non_provider_id name).length = 40 := by
  refine ⟨rfl, ?_⟩
  simp [get_non_provider_id, sha1Hexdigest, String.length, toHexDigits_length]

/-- C6 counterexample: the claim `a ≠ b → id a ≠ id b` for all strings is
false — the digest space is finite (`2 ^ 160` values) while strings are
infinite, so two distinct names share an identifier. -/
theorem get_non_provider_id_not_injective :
    ¬ ∀ a b : String, a ≠ b → get_non_provider_id a ≠ get_non_provider_id b := by
  intro hinj
  obtain ⟨a, b, hne, heq⟩ := Finite.exists_ne_map_eq_of_infinite
    (fun s : String =>
      (⟨digestNat (utf8Encode s), digestNat_lt (utf8Encode s)⟩ : Fin (2 ^ 160)))
  have hd : digestNat (utf8Encode a) = digestNat (utf8Encode b) :=
    congrArg Fin.val heq
  have hw := digestNat_inj hd
  exact hinj a b hne (by simp [get_non_provider_id, sha1Hexdigest, hw])

/-- C6 amended: identifiers of two names coincide exactly when the SHA-1
digests of their UTF-8 encodings coincide; in particular the same name
always yields the same identifier, but distinct names with colliding digests
(which exist, see the counterexample) share one. -/
theorem get_non_provider_id_eq_iff_digest_eq (a b : String) :
    get_non_provider_id a = get_non_provider_id b ↔
      sha1Words (utf8Encode a) = sha1Words (utf8Encode b) := by
  constructor
  · intro h
    have hdata : toHexDigits 8 (sha1Words (utf8Encode a)).a ++
        toHexDigits 8 (sha1Words (utf8Encode a)).b ++
        toHexDigits 8 (sha1Words (utf8Encode a)).c ++
        toHexDigits 8 (sha1Words (utf8Encode a)).d ++
        toHexDigits 8 (sha1Words (utf8Encode a)).e
      = toHexDigits 8 (sha1Words (utf8Encode b)).a ++
        toHexDigits 8 (sha1Words (utf8Encode b)).b ++
        toHexDigits 8 (sha1Words (utf8Encode b)).c ++
        toHexDigits 8 (sha1Words (utf8Encode b)).d ++
        toHexDigits 8 (sha1Words (utf8Encode b)).e := congrArg String.data h
    exact hex40_inj _ _ (sha1Words_wordsLt _) (sha1Words_wordsLt _) hdata
  · intro h
    simp [get_non_provider_id, sha1Hexdigest, h]

end ScoutSuite
